import Mathlib

/-!
Verification of the synchronized multi-view image comparison engine of
`src/main.py` (ImageComparisonTool).

The Python program is shallowly embedded:

* decoded images are raw byte buffers (`Image.tobytes()`), modelled as
  `List Nat` with each entry a byte value below 256;
* numpy `uint8` arithmetic is modelled exactly, with explicit `% 256`
  wraparound on subtraction and squaring;
* Python floats are modelled as exact rationals (`ℚ`); the zoom/clamp and
  mse formulas of the source contain only `+ - * / min max`, for which the
  rational model is the intended real-number semantics;
* comparison keys are filename prefixes ordered lexicographically; the key
  type is modelled as `Nat` with its linear order, which carries exactly the
  order-theoretic structure the key-set logic uses (equality test,
  deterministic sort);
* fallible Python code (uncaught exceptions: `IndexError`, `KeyError`,
  `TypeError`, `AttributeError`, `ValueError`) is modelled with `Option`,
  `none` meaning the operation raises and the handler aborts;
* the asynchronous loader (thread pool, futures, `root.after` callbacks) is
  modelled as a small-step transition system in the `Loading` section below.
-/

namespace ImageCompare

/-! ### Metric engine: `ImageView.calculate_psnr`, src/main.py lines 57-62 -/

/-- A decoded image viewed as its raw byte buffer (`image.tobytes()`). -/
abbrev Image := List Nat

/-- numpy `uint8` subtraction: `im_array - gt_array` (line 60) wraps modulo 256. -/
def wrapSub (a b : Nat) : ℤ :=
  ((a : ℤ) - (b : ℤ)).emod 256

/-- numpy `uint8` squaring: `(...)**2` on a `uint8` array (line 60) wraps modulo 256. -/
def wrapSq (d : ℤ) : ℤ :=
  (d ^ 2).emod 256

/-- The value `((im_array - gt_array)**2).mean()` computed at line 60, with the
`uint8` wraparound of the numpy operations made explicit.  `none` models the
`ValueError` numpy raises on non-broadcastable shapes; the degenerate
length-one broadcast case does not occur in any state considered here. -/
def mseCode (cand ref : Image) : Option ℚ :=
  if cand.length = ref.length then
    some (((((cand.zip ref).map (fun p => wrapSq (wrapSub p.1 p.2))).sum : ℤ) : ℚ)
      / (cand.length : ℚ))
  else none

/-- `calculate_psnr` (lines 57-62) up to the final logarithms: the mse value the
code hands to `math.log10`.  `none` models an uncaught exception: either the
numpy shape `ValueError`, or the `ValueError` raised by `math.log10(0.0)` when
the buffers are identical (line 61 has no zero-mse guard). -/
def calculate_psnr_mse (cand ref : Image) : Option ℚ :=
  match mseCode cand ref with
  | none => none
  | some m => if m = 0 then none else some m

/-- The PSNR value in dB produced from an mse: `20*log10(255) - 10*log10(mse)`
(line 61), as an exact real number. -/
noncomputable def psnrVal (m : ℝ) : ℝ :=
  20 * Real.logb 10 255 - 10 * Real.logb 10 m

/-- The full PSNR computation of `calculate_psnr` (lines 57-62): the dB value
it reports, or `none` when the code raises. -/
noncomputable def calculate_psnr (cand ref : Image) : Option ℝ :=
  (calculate_psnr_mse cand ref).map (fun m => psnrVal (m : ℝ))

/-- Modelled from the spec's formula (§4.5): the exact arithmetic mean of the
squared byte differences `(candidate_byte - reference_byte)^2`, with no
machine-integer wraparound.  Used only to compare the code's metric against
the claimed formula. -/
def mseSpec (cand ref : Image) : Option ℚ :=
  if cand.length = ref.length then
    some (((((cand.zip ref).map (fun p => ((p.1 : ℤ) - (p.2 : ℤ)) ^ 2)).sum : ℤ) : ℚ)
      / (cand.length : ℚ))
  else none

/-- Modelled from the spec's formula (§4.5): `psnr = 20*log10(255) - 10*log10(mse)`
with the exact mse.  Comparison definition for claim C2 only. -/
noncomputable def psnrSpec (cand ref : Image) : Option ℝ :=
  (mseSpec cand ref).map (fun m => psnrVal (m : ℝ))

/-! ### Viewport transform: lines 82-86, 279-282, 331-380 -/

/-- The shared zoom/pan state of `ImageCompareApp`: `zoom`, `crop_center`,
`start_drag_crop_center`, `dragging` (lines 82-86). -/
structure ViewState where
  zoom : ℚ
  crop_center : ℚ × ℚ
  start_drag_crop_center : ℚ × ℚ
  dragging : Bool

/-- Initial viewport state set in `__init__` (lines 82-86). -/
def initViewState : ViewState :=
  { zoom := 1, crop_center := (1/2, 1/2), start_drag_crop_center := (0, 0), dragging := false }

/-- `on_zoom` (lines 331-350) after the event decoding: `delta` is the wheel
direction.  `factor = 1.1 if delta > 0 else 0.9` (line 340), the zoom is
clamped to `[1.0, 100.0]` (line 341), and the crop center is re-clamped
against the new half extent `0.5 / zoom` (lines 343-348). -/
def on_zoom (s : ViewState) (delta : ℤ) : ViewState :=
  let factor : ℚ := if 0 < delta then 11/10 else 9/10
  let z := max 1 (min (s.zoom * factor) 100)
  let h := 1/2 / z
  { s with
    zoom := z,
    crop_center := (min (max s.crop_center.1 h) (1 - h), min (max s.crop_center.2 h) (1 - h)) }

/-- `start_drag` (lines 352-355). -/
def start_drag (s : ViewState) : ViewState :=
  { s with dragging := true, start_drag_crop_center := s.crop_center }

/-- `stop_drag` (lines 357-359). -/
def stop_drag (s : ViewState) : ViewState :=
  { s with dragging := false }

/-- `do_drag` (lines 361-380): pixel deltas `dx, dy` relative to the position
recorded at drag start, converted with the cell size, then clamped.  (When
`cellw * zoom = 0` Python would raise `ZeroDivisionError` before mutating
`crop_center`; the rational convention `x / 0 = 0` below also leaves the
center clamped, so the invariant claims are unaffected.) -/
def do_drag (s : ViewState) (dx dy cellw cellh : ℚ) : ViewState :=
  if s.dragging then
    let cx := s.start_drag_crop_center.1 - dx / (cellw * s.zoom)
    let cy := s.start_drag_crop_center.2 - dy / (cellh * s.zoom)
    let h := 1/2 / s.zoom
    { s with crop_center := (min (max cx h) (1 - h), min (max cy h) (1 - h)) }
  else s

/-- The transform reset performed by `load_images` on every navigation
(lines 279-282): `zoom = 1.0`, `crop_center = (0.5, 0.5)`, `dragging = False`. -/
def reset_transform (s : ViewState) : ViewState :=
  { s with zoom := 1, crop_center := (1/2, 1/2), dragging := false }

/-- The viewport states reachable from startup through the zoom/pan/navigation
operations of the program. -/
inductive ReachableView : ViewState → Prop
  | init : ReachableView initViewState
  | zoomStep {s} (d : ℤ) : ReachableView s → ReachableView (on_zoom s d)
  | startStep {s} : ReachableView s → ReachableView (start_drag s)
  | stopStep {s} : ReachableView s → ReachableView (stop_drag s)
  | dragStep {s} (dx dy cellw cellh : ℚ) :
      ReachableView s → ReachableView (do_drag s dx dy cellw cellh)
  | resetStep {s} : ReachableView s → ReachableView (reset_transform s)

/-- The crop-window invariant of spec §3 (Viewport State): the zoom is within
`[1, 100]` and each crop-center coordinate lies in `[0.5/zoom, 1 - 0.5/zoom]`. -/
def viewportInv (s : ViewState) : Prop :=
  1 ≤ s.zoom ∧ s.zoom ≤ 100 ∧
  1/2 / s.zoom ≤ s.crop_center.1 ∧ s.crop_center.1 ≤ 1 - 1/2 / s.zoom ∧
  1/2 / s.zoom ≤ s.crop_center.2 ∧ s.crop_center.2 ≤ 1 - 1/2 / s.zoom

/-! ### Session state: sources, key list, panes (lines 64-79, 178-282, 319-329) -/

/-- Comparison keys: filename prefixes, linearly ordered (lexicographically in
the source; the embedding uses `Nat` with its order, which is all the key-set
logic consumes). -/
abbrev Key := Nat

/-- `ImageSource` (lines 22-36): directory path, display label, and the
key-to-filename dictionary built from the directory listing. -/
structure Source where
  path : String
  label : String
  files : List (Key × String)
deriving DecidableEq

/-- `ImageSource.get_file` (lines 35-36): `os.path.join(self.path, self.files[key])`;
`none` models the `KeyError` of a missing dictionary key. -/
def get_file (s : Source) (k : Key) : Option String :=
  (s.files.lookup k).map (fun f => s.path ++ "/" ++ f)

/-- The pane comparison label: either the ground-truth marker `'GT'` or the
formatted PSNR string; a PSNR label is identified by the mse it displays
(the rendered text is `psnrVal` of that mse, formatted). -/
inductive CompText where
  | gt : CompText
  | psnrText : ℚ → CompText
deriving DecidableEq

/-- `ImageView` (lines 38-62): resolved file path, the decoded image once
pulled from its future, and the optional comparison label. -/
structure ImageView where
  path : String
  image : Option Image
  comparison_text : Option CompText
deriving DecidableEq

/-- `ImageView.set_gt` (lines 54-55). -/
def set_gt_view (v : ImageView) : ImageView :=
  { v with comparison_text := some CompText.gt }

/-- `ImageView.calculate_psnr` (lines 57-62) as a pane update.  `none` models
the uncaught exceptions: `AttributeError` when `self.image` is `None`
(line 58 calls `None.tobytes()`), and the `ValueError` cases of
`calculate_psnr_mse`. -/
def calculate_psnr_view (v : ImageView) (gtImg : Image) : Option ImageView :=
  match v.image with
  | none => none
  | some img =>
    match calculate_psnr_mse img gtImg with
    | none => none
    | some m => some { v with comparison_text := some (CompText.psnrText m) }

/-- The session state of `ImageCompareApp` that the key-set, navigation and
ground-truth operations read and write (lines 73-79).  The viewport fields are
modelled separately as `ViewState`. -/
structure AppState where
  image_sources : List (Option Source)
  image_views : List (Option ImageView)
  key_list : List Key
  current_key : Option ℤ
  gt_index : Option ℤ
deriving DecidableEq

/-- Python list indexing `l[i]` with its negative-index semantics; `none`
models `IndexError`. -/
def pyGet {α : Type} (l : List α) (i : ℤ) : Option α :=
  if 0 ≤ i then l.get? i.toNat
  else if (-i).toNat ≤ l.length then l.get? (l.length - (-i).toNat)
  else none

/-- `source.files.keys()` as a list. -/
def sourceKeys (s : Source) : List Key :=
  s.files.map Prod.fst

/-- `set.intersection(*(set(source.files.keys()) for source in available_sources))`
(line 237) for a non-empty source list: membership in every source's key set.
Python sets surface here as deduplicated key lists. -/
def commonKeys (s : Source) (rest : List Source) : List Key :=
  rest.foldl (fun acc src => acc.filter (fun k => (src.files.lookup k).isSome))
    (sourceKeys s).dedup

/-- The index re-clamping of `update_key_list` (lines 241-248). -/
def clampCurrentKey (cur : Option ℤ) (len : Nat) : Option ℤ :=
  if len = 0 then none
  else
    match cur with
    | none => some 0
    | some c => some (min c ((len : ℤ) - 1))

/-- `update_key_list` (lines 234-248), menu updates omitted as UI glue.
`none` models the `TypeError` raised by `set.intersection()` when zero
sources are configured (line 237 with an empty argument list). -/
def update_key_list (st : AppState) : Option AppState :=
  match st.image_sources.filterMap id with
  | [] => none
  | s :: rest =>
    let kl := List.insertionSort (fun a b => a ≤ b) (commonKeys s rest)
    some { st with key_list := kl, current_key := clampCurrentKey st.current_key kl.length }

/-- A freshly created `ImageView(path, future)` (line 277): no image pulled
yet, no comparison label. -/
def freshView (p : String) : ImageView :=
  { path := p, image := none, comparison_text := none }

/-- One iteration of the submit loop of `load_images` (lines 273-277) at pane
`i`: a pane with a source gets a fresh view for the selected key; a pane
without one keeps its previous view entry.  `none` models a `KeyError` from
`source.get_file`. -/
def submitStep (sources : List (Option Source)) (k : Key)
    (vs : List (Option ImageView)) (i : Nat) : Option (List (Option ImageView)) :=
  match sources.get? i with
  | some (some s) =>
    match get_file s k with
    | none => none
    | some p => some (vs.set i (some (freshView p)))
  | _ => some vs

/-- The submit loop of `load_images` (lines 273-277). -/
def submitLoads (sources : List (Option Source)) (k : Key)
    (views : List (Option ImageView)) : Option (List (Option ImageView)) :=
  (List.range 4).foldlM (submitStep sources k) views

/-- `load_images` (lines 261-282).  Future cancellation and the viewport reset
are modelled in the `Loading` section and in `reset_transform`; here the state
effect on the panes is kept.  `none` models the `IndexError` of
`self.key_list[self.current_key]` (line 272) or a `KeyError` in `get_file`. -/
def load_images (st : AppState) : Option AppState :=
  match st.current_key with
  | none => some { st with image_views := [none, none, none, none] }
  | some ck =>
    match pyGet st.key_list ck with
    | none => none
    | some k =>
      (submitLoads st.image_sources k st.image_views).map
        (fun vs => { st with image_views := vs })

/-- `next_image` (lines 319-323).  `none` models the `TypeError` of
`None + 1` when no key is selected (empty key set) and the
`ZeroDivisionError` of `% 0`. -/
def next_image (st : AppState) : Option AppState :=
  match st.current_key with
  | none => none
  | some c =>
    if st.key_list.length = 0 then none
    else load_images { st with current_key := some ((c + 1) % (st.key_list.length : ℤ)) }

/-- `prev_image` (lines 325-329), same fault modes as `next_image`. -/
def prev_image (st : AppState) : Option AppState :=
  match st.current_key with
  | none => none
  | some c =>
    if st.key_list.length = 0 then none
    else load_images
      { st with current_key := some ((c + (st.key_list.length : ℤ) - 1) % (st.key_list.length : ℤ)) }

/-- One iteration of the `menu_set_gt` loop (lines 224-229) at pane `i`:
the loop body reads `self.image_views[self.gt_index]` afresh and calls
`view.calculate_psnr` on every existing non-gt view whenever the gt view's
image is present — without checking the view's own image. -/
def setGtStep (gt : ℤ) (vs : List (Option ImageView)) (i : Nat) :
    Option (List (Option ImageView)) :=
  match vs.get? i with
  | some (some v) =>
    if (i : ℤ) = gt then some (vs.set i (some (set_gt_view v)))
    else
      match pyGet vs gt with
      | none => none
      | some none => some vs
      | some (some gv) =>
        match gv.image with
        | none => some vs
        | some gtImg =>
          match calculate_psnr_view v gtImg with
          | none => none
          | some v2 => some (vs.set i (some v2))
  | _ => some vs

/-- `menu_set_gt` (lines 220-232): sets `gt_index`, then updates every pane's
comparison label.  `none` models an uncaught exception inside the loop. -/
def menu_set_gt (st : AppState) (index : ℤ) : Option AppState :=
  ((List.range 4).foldlM (setGtStep index) st.image_views).map
    (fun vs => { st with image_views := vs, gt_index := some index })

/-- `menu_change_view` (lines 178-191) after the directory dialog returned a
valid directory, already indexed as `src`: replace the pane's source, clear
the ground-truth designation if it pointed at this pane, then
`update_key_list` and `load_images`. -/
def menu_change_view (st : AppState) (index : ℤ) (src : Source) : Option AppState :=
  let st1 : AppState :=
    { st with
      image_sources := st.image_sources.set index.toNat (some src),
      gt_index := if st.gt_index = some index then none else st.gt_index }
  (update_key_list st1).bind load_images

/-- The savestate restore of `current_key` (lines 147-148):
`self.current_key = min(int(settings['key_index']), len(self.key_list))`,
applied only when the key list is non-empty; `cur` is the value
`update_key_list` left in `current_key`. -/
def restore_key_index (saved : ℤ) (cur : Option ℤ) (len : Nat) : Option ℤ :=
  if 0 < len then some (min saved (len : ℤ)) else cur

/-- The key-index invariant of spec §3: `current_key` is `None` or an index
within `[0, len(key_list) - 1]`. -/
def keyIndexInBounds (cur : Option ℤ) (len : Nat) : Prop :=
  ∀ c, cur = some c → 0 ≤ c ∧ c < (len : ℤ)

/-! ### Async image loading: futures and completion callbacks
(lines 261-317; thread pool of line 70, `root.after` hand-off of line 289)

The loader is modelled as a transition system.  The environment fixes the
decoder (`Image.open`/`load`, deterministic per path, `none` on failure), the
path each pane resolves for a key (`source.get_file`), and which panes have a
source.  The futures submitted to the pool live in an append-only list; a view
references its future by position, exactly as a Python `ImageView` holds the
future object handed back by `submit` (line 276).  Worker completion and the
deferred `on_image_load_main_thread` callbacks are separate steps, so every
interleaving of decode completion with navigation is a trace of the system;
`finishStep` is allowed on a cancelled future as well, covering the
cancellation race of spec §5. -/

/-- Fixed collaborators of the loading system. -/
structure LoadEnv where
  decode : String → Option Image
  pathFor : Nat → Key → String
  hasSource : Nat → Bool

/-- A future in the pool: submitted for key `key` and pane `srcIdx`, loading
`fpath`; `result = none` while in flight, `some r` once the worker finished
(`r = none` models a decode failure, lines 291-292). -/
structure Future where
  key : Key
  srcIdx : Nat
  fpath : String
  cancelled : Bool
  result : Option (Option Image)
deriving DecidableEq

/-- A live `ImageView` of the loading system: the position of its future in
the pool, its path, and the image once pulled (lines 38-52). -/
structure LoadView where
  fid : Nat
  vpath : String
  image : Option Image
deriving DecidableEq

/-- The loader-relevant state: the pool, the four pane views, the selected
key, and the pending `root.after` callbacks (pane indices, line 289). -/
structure LoadState where
  futures : List Future
  views : List (Option LoadView)
  currentKey : Option Key
  callbacks : List Nat
deriving DecidableEq

/-- Startup: no futures, empty panes, no key (lines 73-76). -/
def initLoadState : LoadState :=
  { futures := [], views := [none, none, none, none], currentKey := none, callbacks := [] }

/-- Whether some view without a pulled image references future `fid` —
the condition under which `load_images` cancels it (lines 263-265). -/
def viewRefs (views : List (Option LoadView)) (fid : Nat) : Bool :=
  views.any fun ov =>
    match ov with
    | some v => v.fid == fid && v.image.isNone
    | none => false

/-- Mark as cancelled every pooled future still referenced by an imageless
view; `base` is the pool position of the first future in the tail. -/
def markCancelled (views : List (Option LoadView)) : Nat → List Future → List Future
  | _, [] => []
  | base, f :: fs =>
    (if viewRefs views base then { f with cancelled := true } else f)
      :: markCancelled views (base + 1) fs

/-- The cancellation pass of `load_images` (lines 262-265). -/
def cancelPending (s : LoadState) : LoadState :=
  { s with futures := markCancelled s.views 0 s.futures }

/-- One iteration of the submit loop of `load_images` (lines 273-277): a pane
with a source gets a fresh view holding a fresh pending future; a pane
without one is left alone. -/
def submitPane (env : LoadEnv) (k : Key) (s : LoadState) (i : Nat) : LoadState :=
  if env.hasSource i then
    { s with
      views := s.views.set i
        (some { fid := s.futures.length, vpath := env.pathFor i k, image := none }),
      futures := s.futures ++
        [{ key := k, srcIdx := i, fpath := env.pathFor i k, cancelled := false, result := none }] }
  else s

/-- `load_images` for a newly selected key `k` (lines 261-277): cancel the
still-imageless views' futures, then submit a load per sourced pane. -/
def navigate (env : LoadEnv) (k : Key) (s : LoadState) : LoadState :=
  (List.range 4).foldl (submitPane env k) { cancelPending s with currentKey := some k }

/-- `load_images` when `current_key` became `None` (lines 266-269): cancel,
then drop all views. -/
def navigateNone (s : LoadState) : LoadState :=
  { cancelPending s with currentKey := none, views := [none, none, none, none] }

/-- A worker finishing the decode of future `fid`
(`load_image_worker_thread`, lines 284-292): the result is the deterministic
decode of the future's path; a completion callback is scheduled only on
success (line 289 sits inside the `try` before `return image`).  A future
already finished, or a position outside the pool, leaves the state unchanged. -/
def finishStep (env : LoadEnv) (s : LoadState) (fid : Nat) : LoadState :=
  match s.futures.get? fid with
  | some f =>
    match f.result with
    | none =>
      let r := env.decode f.fpath
      { s with
        futures := s.futures.set fid { f with result := some r },
        callbacks := if r.isSome then s.callbacks ++ [f.srcIdx] else s.callbacks }
    | some _ => s
  | none => s

/-- `ImageView.get_image` as performed by `on_image_load_main_thread`
(line 296 with lines 45-52): pull the image of pane `i`'s *current* view from
that view's own future, if finished.  An empty pane slot leaves the state
unchanged (in Python the stale callback raises `AttributeError` before any
mutation). -/
def pullImage (s : LoadState) (i : Nat) : LoadState :=
  match s.views.get? i with
  | some (some v) =>
    match v.image with
    | some _ => s
    | none =>
      match s.futures.get? v.fid with
      | some f =>
        match f.result with
        | some r => { s with views := s.views.set i (some { v with image := r }) }
        | none => s
      | none => s
  | _ => s

/-- Delivery of a scheduled `on_image_load_main_thread(index)` callback
(lines 289, 294-296).  The comparison-text recomputation of lines 298-310
touches only labels, never images, and is modelled at the session level. -/
def runCallback (s : LoadState) (i : Nat) : LoadState :=
  if i ∈ s.callbacks then pullImage { s with callbacks := s.callbacks.erase i } i else s

/-- Loader states reachable from startup under any interleaving of
navigation, worker completion and callback delivery. -/
inductive ReachableLoad (env : LoadEnv) : LoadState → Prop
  | init : ReachableLoad env initLoadState
  | navStep {s} (k : Key) : ReachableLoad env s → ReachableLoad env (navigate env k s)
  | navNoneStep {s} : ReachableLoad env s → ReachableLoad env (navigateNone s)
  | finish {s} (fid : Nat) : ReachableLoad env s → ReachableLoad env (finishStep env s fid)
  | callbackStep {s} (i : Nat) : ReachableLoad env s → ReachableLoad env (runCallback s i)

/-- Pool invariant: every finished future holds the decode of its own path,
and every future's path is the one resolved for its pane and key. -/
def futuresOk (env : LoadEnv) (s : LoadState) : Prop :=
  ∀ fid f, s.futures.get? fid = some f →
    f.fpath = env.pathFor f.srcIdx f.key ∧
    ∀ r, f.result = some r → r = env.decode f.fpath

/-- View invariant: every live view belongs to the currently selected key —
its path is the one resolved for that key, its future is in the pool with the
same path — and its image, once pulled, is the decode of that path. -/
def viewsOk (env : LoadEnv) (s : LoadState) : Prop :=
  ∀ i v, s.views.get? i = some (some v) →
    ∃ k, s.currentKey = some k ∧ v.vpath = env.pathFor i k ∧
      (∃ f, s.futures.get? v.fid = some f ∧ f.fpath = v.vpath ∧ f.key = k ∧ f.srcIdx = i) ∧
      ∀ img, v.image = some img → env.decode v.vpath = some img

/-- Panes without a source never hold a view. -/
def emptyPanesOk (env : LoadEnv) (s : LoadState) : Prop :=
  ∀ i, env.hasSource i = false → s.views.get? i = some none ∨ s.views.get? i = none

/-- The full loader invariant (the pane array always has its four slots). -/
def loadInv (env : LoadEnv) (s : LoadState) : Prop :=
  futuresOk env s ∧ viewsOk env s ∧ emptyPanesOk env s ∧ s.views.length = 4

/-! ### Concrete states used by the closed theorems and witnesses -/

/-- A source named `a` with key set 1,2,3 — spec §8's key set a,b,c. -/
def srcABC : Source :=
  { path := "dirA", label := "A", files := [(1, "f1.png"), (2, "f2.png"), (3, "f3.png")] }

/-- Key set 2,3,4 — spec §8's key set b,c,d. -/
def srcBCD : Source :=
  { path := "dirB", label := "B", files := [(2, "g2.png"), (3, "g3.png"), (4, "g4.png")] }

/-- Key set 3 — spec §8's key set c. -/
def srcC : Source :=
  { path := "dirC", label := "C", files := [(3, "h3.png")] }

/-- A source listing its keys out of order, to exhibit the sort. -/
def srcUnsorted : Source :=
  { path := "dirU", label := "U", files := [(2, "u2.png"), (1, "u1.png"), (3, "u3.png")] }

/-- The startup state with no configured sources. -/
def emptyApp : AppState :=
  { image_sources := [none, none, none, none], image_views := [none, none, none, none],
    key_list := [], current_key := none, gt_index := none }

/-- Spec §8's reconciliation example: sources with key sets
1,2,3 and 2,3,4 and 3. -/
def threeSrcApp : AppState :=
  { emptyApp with image_sources := [some srcABC, some srcBCD, some srcC, none] }

/-- Two sources sharing the key set 2,1,3 listed out of order. -/
def unsortedApp : AppState :=
  { emptyApp with image_sources := [some srcUnsorted, some srcUnsorted, none, none] }

/-- The state restored from a savestate whose `key_index` was 1 while the
recomputed key list has a single key: sources agree on key 1 only. -/
def staleRestoreApp : AppState :=
  { emptyApp with
    image_sources := [some srcC, none, none, none],
    key_list := [3], current_key := some 1 }

/-- Ground-truth pane 0 decoded, pane 1 still loading (`image = None`). -/
def gtCrashApp : AppState :=
  { emptyApp with
    image_sources := [some srcABC, some srcBCD, none, none],
    image_views :=
      [some { path := "dirA/f3.png", image := some [0, 0], comparison_text := none },
       some { path := "dirB/g3.png", image := none, comparison_text := none },
       none, none],
    key_list := [3], current_key := some 0 }

/-- Both panes decoded with different byte buffers. -/
def gtOkApp : AppState :=
  { gtCrashApp with
    image_views :=
      [some { path := "dirA/f3.png", image := some [0, 0], comparison_text := none },
       some { path := "dirB/g3.png", image := some [16, 1], comparison_text := none },
       none, none] }

/-- `gtOkApp` after `menu_set_gt(0)`: pane 0 labelled `GT`, pane 1 labelled
with the PSNR of the wrapped mse `((16-0)^2 % 256 + (1-0)^2 % 256) / 2 = 1/2`. -/
def gtOkAppAfter : AppState :=
  { gtOkApp with
    image_views :=
      [some { path := "dirA/f3.png", image := some [0, 0],
              comparison_text := some CompText.gt },
       some { path := "dirB/g3.png", image := some [16, 1],
              comparison_text := some (CompText.psnrText (1/2)) },
       none, none],
    gt_index := some 0 }

/-- A session on key list `[2, 3]` (sources `srcABC`, `srcBCD`), second key
selected — used to exercise the cyclic navigation. -/
def navApp : AppState :=
  { emptyApp with
    image_sources := [some srcABC, some srcBCD, none, none],
    key_list := [2, 3], current_key := some 1, gt_index := some 1 }

/-- A loading environment for the witness traces: one sourced pane, every
path decodable. -/
def demoEnv : LoadEnv :=
  { decode := fun p => some [p.length], pathFor := fun _ k => Nat.repeat (fun t => "x" ++ t) k "p",
    hasSource := fun i => i == 0 }

/-- The demo trace: navigate to key 1, let the worker finish, deliver the
callback. -/
def demoLoadedState : LoadState :=
  runCallback (finishStep demoEnv (navigate demoEnv 1 initLoadState) 0) 0

/-- A viewport state at `zoom = 2`, used to exhibit the zoom-out factor. -/
def zoomTwoState : ViewState :=
  { zoom := 2, crop_center := (1/2, 1/2), start_drag_crop_center := (0, 0), dragging := false }

/-- Every configured source resolves every key of the current key list — the
coherence `update_key_list` establishes (the key list is the intersection of
the sources' key sets), phrased decidably. -/
def sourcesCoverKeys (st : AppState) : Bool :=
  st.image_sources.all fun os =>
    match os with
    | some s => st.key_list.all fun k => (s.files.lookup k).isSome
    | none => true

/-- The selected index, when present, is non-negative (true in every state the
program reaches except through the buggy savestate restore of C1), phrased
decidably. -/
def currentKeyNonneg (st : AppState) : Bool :=
  match st.current_key with
  | none => true
  | some c => decide (0 ≤ c)

/-! ## Theorems

General list lemmas first, then the invariant lemmas, then one theorem per
claim C1-C10 (with witnesses where the claim theorem carries hypotheses). -/

theorem lget_set_self {α : Type} (l : List α) (i : Nat) (a : α) (h : i < l.length) :
    (l.set i a).get? i = some a := by
  induction l generalizing i with
  | nil => simp at h
  | cons x xs ih =>
    cases i with
    | zero => rfl
    | succ n => simpa using ih n (by simpa using h)

theorem lget_set_ne {α : Type} (l : List α) (i j : Nat) (a : α) (h : i ≠ j) :
    (l.set i a).get? j = l.get? j := by
  induction l generalizing i j with
  | nil => rfl
  | cons x xs ih =>
    cases i with
    | zero =>
      cases j with
      | zero => exact absurd rfl h
      | succ m => rfl
    | succ n =>
      cases j with
      | zero => rfl
      | succ m => simpa using ih n m (by omega)

theorem lget_append_left {α : Type} (l₁ l₂ : List α) (i : Nat) (h : i < l₁.length) :
    (l₁ ++ l₂).get? i = l₁.get? i := by
  induction l₁ generalizing i with
  | nil => simp at h
  | cons x xs ih =>
    cases i with
    | zero => rfl
    | succ n => simpa using ih n (by simpa using h)

theorem lget_lt_length {α : Type} {l : List α} {i : Nat} {a : α} (h : l.get? i = some a) :
    i < l.length := by
  induction l generalizing i with
  | nil => simp at h
  | cons x xs ih =>
    cases i with
    | zero => simp
    | succ n => simpa using ih (by simpa using h)

theorem lget_mem {α : Type} {l : List α} {i : Nat} {a : α} (h : l.get? i = some a) :
    a ∈ l := by
  induction l generalizing i with
  | nil => simp at h
  | cons x xs ih =>
    cases i with
    | zero => simp at h; simp [h]
    | succ n => exact List.mem_cons_of_mem _ (ih (by simpa using h))

/-- C1 (code_bug): the key-index invariant is broken by the savestate restore.
With a persisted `key_index` of 1 and a recomputed key list of length 1,
line 148 (`min(int(settings['key_index']), len(self.key_list))`, an off-by-one
against the `len - 1` clamp of `update_key_list`, line 248) leaves
`current_key = 1`, outside `[0, 0]`; `load_images` then raises `IndexError` at
`self.key_list[self.current_key]` (line 272). -/
theorem C1_restore_clamp_out_of_bounds :
    restore_key_index 1 (some 0) 1 = some 1 ∧
    ¬ keyIndexInBounds (restore_key_index 1 (some 0) 1) 1 ∧
    load_images staleRestoreApp = none := by
  refine ⟨by decide, ?_, by decide⟩
  intro h
  have h2 := h 1 (by decide)
  omega

/-- C3 (code_bug): on identical byte buffers the mse is 0 and
`calculate_psnr` raises `ValueError` from `math.log10(0.0)` (line 61) instead
of reporting a sentinel: the computation faults. -/
theorem C3_psnr_faults_on_identical_buffers :
    mseCode [7, 7] [7, 7] = some 0 ∧ calculate_psnr [7, 7] [7, 7] = none := by
  have h : mseCode [7, 7] [7, 7] = some 0 := by
    norm_num [mseCode, wrapSub, wrapSq]
  refine ⟨h, ?_⟩
  simp [calculate_psnr, calculate_psnr_mse, h]

/-- C5 (code_bug): with at least one source, `update_key_list` produces the
sorted intersection of the key sets (spec §8's example, and a sort witness),
but with zero configured sources `set.intersection(*())` (line 237) raises
`TypeError` instead of yielding the empty key set. -/
theorem C5_reconcile_zero_sources_faults :
    update_key_list emptyApp = none ∧
    (update_key_list threeSrcApp).map AppState.key_list = some [3] ∧
    (update_key_list unsortedApp).map AppState.key_list = some [1, 2, 3] := by
  refine ⟨by decide, by decide, by decide⟩

/-- C2 (code_bug): the metric is not `20*log10(255) - 10*log10(mse)` with the
exact mean of squared byte differences.  numpy evaluates
`(im_array - gt_array)**2` in `uint8`, wrapping both the subtraction and the
square modulo 256 (line 60): on candidate `[16, 1]` against reference
`[0, 0]` the code's mse is `((16^2 % 256) + 1) / 2 = 1/2` while the exact mse
is `(256 + 1) / 2 = 257/2`, and the two resulting PSNR values differ (the
reported 27.1 dB against the true 3.0 dB). -/
theorem C2_psnr_uses_wrapped_uint8_mse :
    mseCode [16, 1] [0, 0] = some (1/2) ∧
    mseSpec [16, 1] [0, 0] = some (257/2) ∧
    calculate_psnr [16, 1] [0, 0] = some (psnrVal ((1 : ℝ)/2)) ∧
    psnrSpec [16, 1] [0, 0] = some (psnrVal ((257 : ℝ)/2)) ∧
    psnrVal ((1 : ℝ)/2) ≠ psnrVal ((257 : ℝ)/2) := by
  have h1 : mseCode [16, 1] [0, 0] = some (1/2) := by
    norm_num [mseCode, wrapSub, wrapSq]
  have h2 : mseSpec [16, 1] [0, 0] = some (257/2) := by
    norm_num [mseSpec]
  refine ⟨h1, h2, ?_, ?_, ?_⟩
  · rw [calculate_psnr, calculate_psnr_mse, h1]
    norm_num
  · rw [psnrSpec, h2]
    norm_num
  · have hlt : Real.logb 10 ((1 : ℝ)/2) < Real.logb 10 ((257 : ℝ)/2) :=
      Real.logb_lt_logb (by norm_num) (by norm_num) (by norm_num)
    intro heq
    rw [psnrVal, psnrVal] at heq
    linarith

/-- C6 counterexample: with an empty key list (`current_key` is `None`),
`next_image` and `prev_image` are not no-ops — `self.current_key + 1`
(line 320) raises `TypeError` on `None`, so neither returns the unchanged
state. -/
theorem C6_empty_navigation_faults :
    next_image emptyApp = none ∧ prev_image emptyApp = none ∧
    next_image emptyApp ≠ some emptyApp := by
  refine ⟨rfl, rfl, by decide⟩

/-- C7 counterexample: zooming out at `zoom = 2` multiplies by 0.9 (line 340),
giving 9/5 — not 2 / 1.1 = 20/11 as the claim's "divides by 1.1" requires. -/
theorem C7_zoom_out_is_not_division :
    (on_zoom zoomTwoState (-1)).zoom = 9/5 ∧ (9/5 : ℚ) ≠ 2 / (11/10) := by
  constructor
  · norm_num [on_zoom, zoomTwoState, min_def, max_def]
  · norm_num

/-- C4 (code_bug): `menu_set_gt` (lines 220-232) does recompute the labels of
decoded panes against the new ground truth (second conjunct), but when any
other pane exists and is not yet decoded the loop calls
`view.calculate_psnr` on it anyway — line 228 only checks the gt view's
image — and line 58 raises `AttributeError` on `None.tobytes()` (first
conjunct): the operation faults instead of leaving undecoded panes for later. -/
theorem C4_set_gt_faults_on_undecoded_pane :
    menu_set_gt gtCrashApp 0 = none ∧
    menu_set_gt gtOkApp 0 = some gtOkAppAfter := by
  constructor
  · rfl
  · have h : calculate_psnr_mse [16, 1] [0, 0] = some (1/2) := by
      norm_num [calculate_psnr_mse, mseCode, wrapSub, wrapSq]
    simp [menu_set_gt, setGtStep, calculate_psnr_view, h, pyGet, set_gt_view,
      gtOkApp, gtOkAppAfter, gtCrashApp, emptyApp, List.range_succ]

/-! ### Viewport lemmas (for C7 and C8) -/

theorem clamp_bounds (z x : ℚ) (hz : 1 ≤ z) :
    1/2 / z ≤ min (max x (1/2 / z)) (1 - 1/2 / z) ∧
    min (max x (1/2 / z)) (1 - 1/2 / z) ≤ 1 - 1/2 / z := by
  have hhalf : 1/2 / z ≤ 1/2 := div_le_self (by norm_num) hz
  exact ⟨le_min (le_max_right _ _) (by linarith), min_le_right _ _⟩

theorem on_zoom_zoom_bounds (s : ViewState) (d : ℤ) :
    1 ≤ (on_zoom s d).zoom ∧ (on_zoom s d).zoom ≤ 100 := by
  simp only [on_zoom]
  exact ⟨le_max_left _ _, max_le (by norm_num) (min_le_right _ _)⟩

theorem on_zoom_establishes_inv (s : ViewState) (d : ℤ) : viewportInv (on_zoom s d) := by
  obtain ⟨hz1, hz2⟩ := on_zoom_zoom_bounds s d
  set z := (on_zoom s d).zoom with hzdef
  have hx := clamp_bounds z s.crop_center.1 hz1
  have hy := clamp_bounds z s.crop_center.2 hz1
  have hcx : (on_zoom s d).crop_center.1 = min (max s.crop_center.1 (1/2 / z)) (1 - 1/2 / z) := by
    simp [on_zoom, hzdef]
  have hcy : (on_zoom s d).crop_center.2 = min (max s.crop_center.2 (1/2 / z)) (1 - 1/2 / z) := by
    simp [on_zoom, hzdef]
  exact ⟨hz1, hz2, hcx ▸ hx.1, hcx ▸ hx.2, hcy ▸ hy.1, hcy ▸ hy.2⟩

theorem do_drag_preserves_inv (s : ViewState) (dx dy cellw cellh : ℚ)
    (h : viewportInv s) : viewportInv (do_drag s dx dy cellw cellh) := by
  obtain ⟨hz1, hz2, ha, hb, hc, hd2⟩ := h
  by_cases hd : s.dragging
  · have hx := clamp_bounds s.zoom (s.start_drag_crop_center.1 - dx / (cellw * s.zoom)) hz1
    have hy := clamp_bounds s.zoom (s.start_drag_crop_center.2 - dy / (cellh * s.zoom)) hz1
    have hzz : (do_drag s dx dy cellw cellh).zoom = s.zoom := by
      simp [do_drag, hd]
    have hcx : (do_drag s dx dy cellw cellh).crop_center.1 =
        min (max (s.start_drag_crop_center.1 - dx / (cellw * s.zoom)) (1/2 / s.zoom))
          (1 - 1/2 / s.zoom) := by
      simp [do_drag, hd]
    have hcy : (do_drag s dx dy cellw cellh).crop_center.2 =
        min (max (s.start_drag_crop_center.2 - dy / (cellh * s.zoom)) (1/2 / s.zoom))
          (1 - 1/2 / s.zoom) := by
      simp [do_drag, hd]
    refine ⟨?_, ?_, ?_, ?_, ?_, ?_⟩ <;> rw [hzz]
    · exact hz1
    · exact hz2
    · rw [hcx]; exact hx.1
    · rw [hcx]; exact hx.2
    · rw [hcy]; exact hy.1
    · rw [hcy]; exact hy.2
  · have hs : do_drag s dx dy cellw cellh = s := by simp [do_drag, hd]
    rw [hs]
    exact ⟨hz1, hz2, ha, hb, hc, hd2⟩

theorem reset_establishes_inv (s : ViewState) : viewportInv (reset_transform s) := by
  refine ⟨?_, ?_, ?_, ?_, ?_, ?_⟩ <;> norm_num [reset_transform]

theorem init_inv : viewportInv initViewState := by
  refine ⟨?_, ?_, ?_, ?_, ?_, ?_⟩ <;> norm_num [initViewState]

theorem start_drag_preserves_inv (s : ViewState) (h : viewportInv s) :
    viewportInv (start_drag s) := h

theorem stop_drag_preserves_inv (s : ViewState) (h : viewportInv s) :
    viewportInv (stop_drag s) := h

/-- C7 amended: `on_zoom` multiplies the zoom by 1.1 when zooming in and by
0.9 (not by 1/1.1) when zooming out, clamps the result to `[1, 100]` (the
inactive side of the clamp provably does nothing for an in-range zoom), and
re-clamps each crop-center coordinate into
`[0.5/zoom', 1 - 0.5/zoom']` for the new zoom. -/
theorem C7_zoom_step_behaviour (s : ViewState) (d : ℤ)
    (h1 : 1 ≤ s.zoom) (h2 : s.zoom ≤ 100) :
    (0 < d → (on_zoom s d).zoom = min (s.zoom * (11/10)) 100) ∧
    (¬ 0 < d → (on_zoom s d).zoom = max (s.zoom * (9/10)) 1) ∧
    1 ≤ (on_zoom s d).zoom ∧ (on_zoom s d).zoom ≤ 100 ∧
    1/2 / (on_zoom s d).zoom ≤ (on_zoom s d).crop_center.1 ∧
    (on_zoom s d).crop_center.1 ≤ 1 - 1/2 / (on_zoom s d).zoom ∧
    1/2 / (on_zoom s d).zoom ≤ (on_zoom s d).crop_center.2 ∧
    (on_zoom s d).crop_center.2 ≤ 1 - 1/2 / (on_zoom s d).zoom := by
  have hinv := on_zoom_establishes_inv s d
  refine ⟨?_, ?_, hinv.1, hinv.2.1, hinv.2.2.1, hinv.2.2.2.1, hinv.2.2.2.2.1, hinv.2.2.2.2.2⟩
  · intro hd
    have hge : (1 : ℚ) ≤ min (s.zoom * (11/10)) 100 := le_min (by linarith) (by norm_num)
    simp only [on_zoom, hd, if_true]
    exact max_eq_right hge
  · intro hd
    have hle : s.zoom * (9/10) ≤ (100 : ℚ) := by linarith
    simp only [on_zoom, hd, if_false]
    rw [min_eq_left hle, max_comm]

/-- Witness for C7's amended theorem at the concrete state `zoom = 2`. -/
theorem C7_zoom_step_behaviour_witness :
    (0 < (-1 : ℤ) → (on_zoom zoomTwoState (-1)).zoom = min (zoomTwoState.zoom * (11/10)) 100) ∧
    (¬ 0 < (-1 : ℤ) → (on_zoom zoomTwoState (-1)).zoom = max (zoomTwoState.zoom * (9/10)) 1) ∧
    1 ≤ (on_zoom zoomTwoState (-1)).zoom ∧ (on_zoom zoomTwoState (-1)).zoom ≤ 100 ∧
    1/2 / (on_zoom zoomTwoState (-1)).zoom ≤ (on_zoom zoomTwoState (-1)).crop_center.1 ∧
    (on_zoom zoomTwoState (-1)).crop_center.1 ≤ 1 - 1/2 / (on_zoom zoomTwoState (-1)).zoom ∧
    1/2 / (on_zoom zoomTwoState (-1)).zoom ≤ (on_zoom zoomTwoState (-1)).crop_center.2 ∧
    (on_zoom zoomTwoState (-1)).crop_center.2 ≤ 1 - 1/2 / (on_zoom zoomTwoState (-1)).zoom :=
  C7_zoom_step_behaviour zoomTwoState (-1) (by norm_num [zoomTwoState]) (by norm_num [zoomTwoState])

/-- C8: in every reachable viewport state the zoom lies in `[1, 100]` and each
crop-center coordinate lies in `[0.5/zoom, 1 - 0.5/zoom]`; in particular at
`zoom = 1` the crop center is exactly `(0.5, 0.5)`. -/
theorem C8_crop_center_invariant (s : ViewState) (h : ReachableView s) :
    viewportInv s ∧ (s.zoom = 1 → s.crop_center = (1/2, 1/2)) := by
  have main : viewportInv s := by
    induction h with
    | init => exact init_inv
    | zoomStep d _ _ => exact on_zoom_establishes_inv _ d
    | startStep _ ih => exact start_drag_preserves_inv _ ih
    | stopStep _ ih => exact stop_drag_preserves_inv _ ih
    | dragStep dx dy cellw cellh _ ih => exact do_drag_preserves_inv _ dx dy cellw cellh ih
    | resetStep _ _ => exact reset_establishes_inv _
  refine ⟨main, ?_⟩
  intro hz
  obtain ⟨_, _, ha, hb, hc, hd⟩ := main
  rw [hz] at ha hb hc hd
  norm_num at ha hb hc hd
  rw [Prod.ext_iff]
  exact ⟨by linarith, by linarith⟩

/-- Witness for C8 at a concrete reachable state: zoom in once, start a drag,
drag by 5 and 3 pixels in 100-pixel cells. -/
theorem C8_crop_center_invariant_witness :
    viewportInv (do_drag (start_drag (on_zoom initViewState 1)) 5 3 100 100) ∧
    ((do_drag (start_drag (on_zoom initViewState 1)) 5 3 100 100).zoom = 1 →
      (do_drag (start_drag (on_zoom initViewState 1)) 5 3 100 100).crop_center = (1/2, 1/2)) :=
  C8_crop_center_invariant _
    (ReachableView.dragStep 5 3 100 100
      (ReachableView.startStep (ReachableView.zoomStep 1 ReachableView.init)))

/-! ### Session lemmas (for C6 and C10) -/

theorem lget_isSome {α : Type} {l : List α} {i : Nat} (h : i < l.length) :
    ∃ a, l.get? i = some a := by
  induction l generalizing i with
  | nil => simp at h
  | cons x xs ih =>
    cases i with
    | zero => exact ⟨x, rfl⟩
    | succ n => simpa using ih (by simpa using h)

theorem foldlM_option_isSome {α β : Type} (f : β → α → Option β) :
    ∀ (L : List α) (b : β), (∀ x ∈ L, ∀ acc, (f acc x).isSome) → (L.foldlM f b).isSome := by
  intro L
  induction L with
  | nil => intro b _; simp
  | cons x xs ih =>
    intro b h
    rw [List.foldlM_cons]
    cases hfa : f b x with
    | none =>
      have := h x (by simp) b
      rw [hfa] at this
      simp at this
    | some b2 =>
      simp only [hfa, Option.bind_eq_bind, Option.some_bind]
      exact ih b2 (fun y hy acc => h y (by simp [hy]) acc)

theorem lookup_isSome_of_mem_keys {l : List (Key × String)} {k : Key}
    (h : k ∈ l.map Prod.fst) : (l.lookup k).isSome := by
  induction l with
  | nil => simp at h
  | cons p rest ih =>
    obtain ⟨k1, v⟩ := p
    by_cases he : k = k1
    · have hbeq : (k == k1) = true := beq_iff_eq.2 he
      simp [List.lookup, hbeq]
    · have hm : k ∈ rest.map Prod.fst := by
        rcases List.mem_map.1 h with ⟨q, hq, hqk⟩
        rcases List.mem_cons.1 hq with hq1 | hq2
        · exact absurd (by rw [hq1] at hqk; simpa using hqk.symm) he
        · exact List.mem_map.2 ⟨q, hq2, hqk⟩
      have hbeq : (k == k1) = false := beq_eq_false_iff_ne.2 he
      simpa [List.lookup, hbeq] using ih hm

theorem mem_foldl_filter {α β : Type} (p : β → α → Bool) :
    ∀ (L : List β) (init : List α) (a : α),
      a ∈ L.foldl (fun acc src => acc.filter (p src)) init →
      a ∈ init ∧ ∀ src ∈ L, p src a = true := by
  intro L
  induction L with
  | nil => intro init a h; exact ⟨by simpa using h, by simp⟩
  | cons x xs ih =>
    intro init a h
    obtain ⟨hmem, hall⟩ := ih (init.filter (p x)) a (by simpa using h)
    have hf := List.mem_filter.1 hmem
    refine ⟨hf.1, ?_⟩
    intro src hsrc
    rcases List.mem_cons.1 hsrc with h1 | h2
    · exact h1 ▸ hf.2
    · exact hall src h2

theorem commonKeys_lookup {s : Source} {rest : List Source} {k : Key}
    (hk : k ∈ commonKeys s rest) :
    (s.files.lookup k).isSome ∧ ∀ src ∈ rest, (src.files.lookup k).isSome := by
  unfold commonKeys at hk
  obtain ⟨hinit, hall⟩ :=
    mem_foldl_filter (fun src k => (src.files.lookup k).isSome) rest (sourceKeys s).dedup k hk
  constructor
  · exact lookup_isSome_of_mem_keys (by simpa [sourceKeys] using List.mem_dedup.1 hinit)
  · intro src hsrc
    simpa using hall src hsrc

theorem sourcesCoverKeys_lookup {st : AppState} (hcov : sourcesCoverKeys st = true)
    {k : Key} (hk : k ∈ st.key_list) :
    ∀ i s, st.image_sources.get? i = some (some s) → (s.files.lookup k).isSome := by
  intro i s hget
  have hmem : (some s) ∈ st.image_sources := lget_mem hget
  have h1 := List.all_eq_true.1 hcov _ hmem
  have h2 := List.all_eq_true.1 h1 k hk
  simpa using h2

theorem submitLoads_isSome (sources : List (Option Source)) (k : Key)
    (views : List (Option ImageView))
    (hs : ∀ i s, sources.get? i = some (some s) → (s.files.lookup k).isSome) :
    (submitLoads sources k views).isSome := by
  apply foldlM_option_isSome
  intro i _ acc
  cases hg : sources.get? i with
  | none => simp only [submitStep, hg, Option.isSome_some]
  | some os =>
    cases os with
    | none => simp only [submitStep, hg, Option.isSome_some]
    | some s =>
      have hl := hs i s hg
      rw [Option.isSome_iff_exists] at hl
      obtain ⟨f, hf⟩ := hl
      have hgf : get_file s k = some (s.path ++ "/" ++ f) := by
        unfold get_file
        rw [hf]
        rfl
      simp only [submitStep, hg, hgf, Option.isSome_some]

theorem load_images_spec (st : AppState)
    (hb : keyIndexInBounds st.current_key st.key_list.length)
    (hcov : sourcesCoverKeys st = true) :
    ∃ vs, load_images st = some { st with image_views := vs } := by
  cases hck : st.current_key with
  | none => exact ⟨[none, none, none, none], by simp [load_images, hck]⟩
  | some c =>
    obtain ⟨h0, hlt⟩ := hb c hck
    have htn : c.toNat < st.key_list.length := by omega
    obtain ⟨k, hk⟩ := lget_isSome htn
    have hpy : pyGet st.key_list c = some k := by
      unfold pyGet
      rw [if_pos h0, hk]
    have hsome := submitLoads_isSome st.image_sources k st.image_views
      (sourcesCoverKeys_lookup hcov (lget_mem hk))
    rw [Option.isSome_iff_exists] at hsome
    obtain ⟨vs, hvs⟩ := hsome
    exact ⟨vs, by simp [load_images, hck, hpy, hvs]⟩

theorem clampCurrentKey_inBounds (cur : Option ℤ) (len : Nat)
    (hnn : ∀ c, cur = some c → 0 ≤ c) :
    keyIndexInBounds (clampCurrentKey cur len) len := by
  intro c hc
  unfold clampCurrentKey at hc
  by_cases hlen : len = 0
  · rw [if_pos hlen] at hc
    exact absurd hc (by simp)
  · rw [if_neg hlen] at hc
    cases cur with
    | none =>
      have : c = 0 := by simpa using hc.symm
      subst this
      omega
    | some c0 =>
      have h0 := hnn c0 rfl
      have hcc : min c0 ((len : ℤ) - 1) = c := by simpa using hc
      have hge : (0 : ℤ) ≤ min c0 ((len : ℤ) - 1) := le_min h0 (by omega)
      have hle : min c0 ((len : ℤ) - 1) ≤ (len : ℤ) - 1 := min_le_right _ _
      omega

theorem update_key_list_spec (st : AppState) (j : Nat) (s0 : Source)
    (hj : st.image_sources.get? j = some (some s0))
    (hnn : currentKeyNonneg st = true) :
    ∃ st', update_key_list st = some st' ∧
      st'.image_sources = st.image_sources ∧
      st'.image_views = st.image_views ∧
      st'.gt_index = st.gt_index ∧
      keyIndexInBounds st'.current_key st'.key_list.length ∧
      sourcesCoverKeys st' = true := by
  have hmem : s0 ∈ st.image_sources.filterMap id :=
    List.mem_filterMap.2 ⟨some s0, lget_mem hj, rfl⟩
  cases havail : st.image_sources.filterMap id with
  | nil => rw [havail] at hmem; simp at hmem
  | cons s rest =>
    set kl := List.insertionSort (fun a b => a ≤ b) (commonKeys s rest) with hkl
    refine ⟨{ st with
              key_list := kl,
              current_key := clampCurrentKey st.current_key kl.length },
      by simp [update_key_list, havail, hkl], rfl, rfl, rfl, ?_, ?_⟩
    · apply clampCurrentKey_inBounds
      intro c hc
      unfold currentKeyNonneg at hnn
      rw [hc] at hnn
      simpa using hnn
    · apply List.all_eq_true.2
      intro os hos
      cases os with
      | none => rfl
      | some s2 =>
        have hs2 : s2 ∈ st.image_sources.filterMap id :=
          List.mem_filterMap.2 ⟨some s2, hos, rfl⟩
        rw [havail] at hs2
        apply List.all_eq_true.2
        intro k hkkl
        have hkc : k ∈ commonKeys s rest :=
          ((List.perm_insertionSort (fun a b => a ≤ b) (commonKeys s rest)).mem_iff).1 hkkl
        obtain ⟨hhead, hrest⟩ := commonKeys_lookup hkc
        rcases List.mem_cons.1 hs2 with h1 | h2
        · subst h1; simpa using hhead
        · simpa using hrest s2 h2

/-! ### Loader lemmas (for C9) -/

theorem lget_append_at_length {α : Type} (l : List α) (x : α) :
    (l ++ [x]).get? l.length = some x := by
  induction l with
  | nil => rfl
  | cons y ys ih => simp [ih]

theorem lget_none_of_ge {α : Type} {l : List α} {i : Nat} (h : l.length ≤ i) :
    l.get? i = none := by
  induction l generalizing i with
  | nil => rfl
  | cons y ys ih =>
    cases i with
    | zero => simp at h
    | succ n => simpa using ih (by simpa using h)

theorem markCancelled_get (views : List (Option LoadView)) :
    ∀ (fs : List Future) (base fid : Nat),
      (markCancelled views base fs).get? fid =
        (fs.get? fid).map
          (fun f => if viewRefs views (base + fid) then { f with cancelled := true } else f) := by
  intro fs
  induction fs with
  | nil => intro base fid; simp [markCancelled]
  | cons f fs ih =>
    intro base fid
    cases fid with
    | zero => simp [markCancelled]
    | succ n =>
      have harith : base + 1 + n = base + (n + 1) := by omega
      simp only [markCancelled, List.get?]
      rw [ih (base + 1) n, harith]

theorem cancelPending_futures_get {s : LoadState} {fid : Nat} {f' : Future}
    (h : (cancelPending s).futures.get? fid = some f') :
    ∃ f, s.futures.get? fid = some f ∧ f'.key = f.key ∧ f'.srcIdx = f.srcIdx ∧
      f'.fpath = f.fpath ∧ f'.result = f.result := by
  have h2 : (markCancelled s.views 0 s.futures).get? fid = some f' := h
  rw [markCancelled_get] at h2
  cases hf : s.futures.get? fid with
  | none => rw [hf] at h2; simp at h2
  | some f =>
    rw [hf] at h2
    simp only [Option.map_some'] at h2
    refine ⟨f, rfl, ?_⟩
    by_cases hr : viewRefs s.views (0 + fid)
    · rw [if_pos hr] at h2
      obtain rfl : ({ f with cancelled := true } : Future) = f' := Option.some.inj h2
      exact ⟨rfl, rfl, rfl, rfl⟩
    · rw [if_neg hr] at h2
      obtain rfl : f = f' := Option.some.inj h2
      exact ⟨rfl, rfl, rfl, rfl⟩

theorem cancelPending_futuresOk (env : LoadEnv) (s : LoadState)
    (h : futuresOk env s) : futuresOk env (cancelPending s) := by
  intro fid f' hget
  obtain ⟨f, hf, hk, hsrc, hfp, hres⟩ := cancelPending_futures_get hget
  obtain ⟨h1, h2⟩ := h fid f hf
  refine ⟨by rw [hfp, hsrc, hk]; exact h1, ?_⟩
  intro r hr
  rw [hfp]
  exact h2 r (by rw [← hres]; exact hr)

theorem foldl_submitPane_currentKey (env : LoadEnv) (k : Key) :
    ∀ (L : List Nat) (t : LoadState),
      (L.foldl (submitPane env k) t).currentKey = t.currentKey := by
  intro L
  induction L with
  | nil => intro t; rfl
  | cons i L ih =>
    intro t
    rw [List.foldl_cons, ih]
    by_cases h : env.hasSource i <;> simp [submitPane, h]

theorem foldl_submitPane_viewsLength (env : LoadEnv) (k : Key) :
    ∀ (L : List Nat) (t : LoadState),
      (L.foldl (submitPane env k) t).views.length = t.views.length := by
  intro L
  induction L with
  | nil => intro t; rfl
  | cons i L ih =>
    intro t
    rw [List.foldl_cons, ih]
    by_cases h : env.hasSource i <;> simp [submitPane, h]

theorem foldl_submitPane_futures_mono (env : LoadEnv) (k : Key) :
    ∀ (L : List Nat) (t : LoadState) (fid : Nat) (f : Future),
      t.futures.get? fid = some f →
      (L.foldl (submitPane env k) t).futures.get? fid = some f := by
  intro L
  induction L with
  | nil => intro t fid f h; exact h
  | cons i L ih =>
    intro t fid f h
    rw [List.foldl_cons]
    apply ih
    by_cases hs : env.hasSource i
    · simp only [submitPane, hs, if_true]
      exact (lget_append_left _ _ _ (lget_lt_length h)).trans h
    · simpa [submitPane, hs] using h

theorem foldl_submitPane_futuresOk (env : LoadEnv) (k : Key) :
    ∀ (L : List Nat) (t : LoadState), futuresOk env t →
      futuresOk env (L.foldl (submitPane env k) t) := by
  intro L
  induction L with
  | nil => intro t h; exact h
  | cons i L ih =>
    intro t h
    rw [List.foldl_cons]
    apply ih
    by_cases hs : env.hasSource i
    · intro fid f hget
      simp only [submitPane, hs, if_true] at hget
      rcases Nat.lt_trichotomy fid t.futures.length with hlt | heq | hgt
      · rw [lget_append_left _ _ _ hlt] at hget
        exact h fid f hget
      · subst heq
        rw [lget_append_at_length] at hget
        obtain rfl := Option.some.inj hget
        exact ⟨rfl, by intro r hr; simp at hr⟩
      · rw [lget_none_of_ge (by simp; omega)] at hget
        simp at hget
    · simpa [submitPane, hs] using h

theorem foldl_submitPane_views_char (env : LoadEnv) (k : Key) :
    ∀ (L : List Nat) (t : LoadState) (j : Nat) (v : LoadView),
      (L.foldl (submitPane env k) t).views.get? j = some (some v) →
      (t.views.get? j = some (some v) ∧ (env.hasSource j = false ∨ j ∉ L)) ∨
      (env.hasSource j = true ∧ v.vpath = env.pathFor j k ∧ v.image = none ∧
        ∃ f, (L.foldl (submitPane env k) t).futures.get? v.fid = some f ∧
          f.key = k ∧ f.srcIdx = j ∧ f.fpath = env.pathFor j k) := by
  intro L
  induction L with
  | nil =>
    intro t j v h
    exact Or.inl ⟨h, Or.inr (by simp)⟩
  | cons i L ih =>
    intro t j v h
    simp only [List.foldl_cons] at h ⊢
    rcases ih (submitPane env k t i) j v h with ⟨hview, hcond⟩ | hfresh
    · by_cases hs : env.hasSource i
      · by_cases hij : i = j
        · subst hij
          have hlen : i < t.views.length := by
            have h1 := lget_lt_length hview
            simpa [submitPane, hs] using h1
          have hset : (submitPane env k t i).views.get? i =
              some (some { fid := t.futures.length, vpath := env.pathFor i k, image := none }) := by
            simp only [submitPane, hs, if_true]
            exact lget_set_self _ _ _ hlen
          have hv : v = { fid := t.futures.length, vpath := env.pathFor i k, image := none } := by
            have := hview.symm.trans hset
            exact (Option.some.inj (Option.some.inj this))
          have hfut : (submitPane env k t i).futures.get? t.futures.length =
              some { key := k, srcIdx := i, fpath := env.pathFor i k,
                     cancelled := false, result := none } := by
            simp only [submitPane, hs, if_true]
            exact lget_append_at_length _ _
          refine Or.inr ⟨hs, by rw [hv], by rw [hv], ?_⟩
          refine ⟨{ key := k, srcIdx := i, fpath := env.pathFor i k,
                    cancelled := false, result := none }, ?_, rfl, rfl, rfl⟩
          rw [hv]
          exact foldl_submitPane_futures_mono env k L _ _ _ hfut
        · have hun : t.views.get? j = some (some v) := by
            by_cases hs2 : env.hasSource i
            · have h2 := hview
              simp only [submitPane, hs2, if_true] at h2
              rwa [lget_set_ne t.views i j _ hij] at h2
            · simpa [submitPane, hs2] using hview
          refine Or.inl ⟨hun, ?_⟩
          rcases hcond with hf | hnot
          · exact Or.inl hf
          · exact Or.inr (by simp [List.mem_cons, hnot]; omega)
      · have hun : t.views.get? j = some (some v) := by simpa [submitPane, hs] using hview
        refine Or.inl ⟨hun, ?_⟩
        rcases hcond with hf | hnot
        · exact Or.inl hf
        · by_cases hij : i = j
          · subst hij
            exact Or.inl (by simpa using hs)
          · exact Or.inr (by simp [List.mem_cons, hnot]; omega)
    · exact Or.inr hfresh

theorem quad_none_no_view (j : Nat) (v : LoadView)
    (h : ([none, none, none, none] : List (Option LoadView)).get? j = some (some v)) :
    False := by
  rcases j with _ | _ | _ | _ | j <;> simp at h

theorem quad_none_empty (j : Nat) :
    ([none, none, none, none] : List (Option LoadView)).get? j = some none ∨
    ([none, none, none, none] : List (Option LoadView)).get? j = none := by
  rcases j with _ | _ | _ | _ | j <;> simp

theorem init_loadInv (env : LoadEnv) : loadInv env initLoadState := by
  refine ⟨?_, ?_, ?_, rfl⟩
  · intro fid f h
    simp [initLoadState] at h
  · intro i v h
    exact absurd h (by intro h2; exact quad_none_no_view i v h2)
  · intro i _
    exact quad_none_empty i

theorem navigate_inv (env : LoadEnv) (k : Key) (s : LoadState) (hs : loadInv env s) :
    loadInv env (navigate env k s) := by
  obtain ⟨hfut, _, hempty, hlen⟩ := hs
  set base : LoadState := { cancelPending s with currentKey := some k } with hbase
  have hbase_fut : futuresOk env base := cancelPending_futuresOk env s hfut
  have hbase_empty : emptyPanesOk env base := hempty
  have hbase_len : base.views.length = 4 := hlen
  have hnav : navigate env k s = (List.range 4).foldl (submitPane env k) base := rfl
  have hflen : (navigate env k s).views.length = 4 := by
    rw [hnav, foldl_submitPane_viewsLength]
    exact hbase_len
  have hnoview : ∀ j v, (navigate env k s).views.get? j = some (some v) →
      env.hasSource j = true ∧ v.vpath = env.pathFor j k ∧ v.image = none ∧
      ∃ f, (navigate env k s).futures.get? v.fid = some f ∧
        f.key = k ∧ f.srcIdx = j ∧ f.fpath = env.pathFor j k := by
    intro j v hv
    have hj4 : j < 4 := by
      have h1 := lget_lt_length hv
      rw [hflen] at h1
      exact h1
    rw [hnav] at hv
    rcases foldl_submitPane_views_char env k (List.range 4) base j v hv with ⟨hb, hcond⟩ | hfresh
    · rcases hcond with hns | hnm
      · rcases hbase_empty j hns with h1 | h1 <;> rw [h1] at hb <;> simp at hb
      · exact absurd (List.mem_range.2 hj4) hnm
    · exact hfresh
  refine ⟨?_, ?_, ?_, hflen⟩
  · rw [hnav]
    exact foldl_submitPane_futuresOk env k (List.range 4) base hbase_fut
  · intro j v hv
    obtain ⟨hsrc, hpath, himg, f, hf, hfk, hfs, hfp⟩ := hnoview j v hv
    refine ⟨k, ?_, hpath, ⟨f, hf, by rw [hfp, hpath], hfk, hfs⟩, ?_⟩
    · rw [hnav, foldl_submitPane_currentKey]
    · intro img himg2
      rw [himg] at himg2
      simp at himg2
  · intro j hjs
    by_cases hj4 : j < 4
    · obtain ⟨x, hx⟩ :=
        lget_isSome (l := (navigate env k s).views) (i := j) (by rw [hflen]; exact hj4)
      cases x with
      | none => exact Or.inl hx
      | some v =>
        obtain ⟨hsrc, _⟩ := hnoview j v hx
        rw [hjs] at hsrc
        simp at hsrc
    · exact Or.inr (lget_none_of_ge (by omega))

theorem finishStep_inv (env : LoadEnv) (s : LoadState) (fid : Nat)
    (hs : loadInv env s) : loadInv env (finishStep env s fid) := by
  obtain ⟨hfut, hviews, hempty, hlen⟩ := hs
  cases hf : s.futures.get? fid with
  | none =>
    have hstep : finishStep env s fid = s := by
      simp only [finishStep, hf]
    rw [hstep]
    exact ⟨hfut, hviews, hempty, hlen⟩
  | some f =>
    cases hr : f.result with
    | some r =>
      have hstep : finishStep env s fid = s := by
        simp only [finishStep, hf, hr]
      rw [hstep]
      exact ⟨hfut, hviews, hempty, hlen⟩
    | none =>
      have hstep : finishStep env s fid =
          { s with
            futures := s.futures.set fid { f with result := some (env.decode f.fpath) },
            callbacks := if (env.decode f.fpath).isSome then s.callbacks ++ [f.srcIdx]
              else s.callbacks } := by
        simp only [finishStep, hf, hr]
      rw [hstep]
      have hflt : fid < s.futures.length := lget_lt_length hf
      refine ⟨?_, ?_, hempty, hlen⟩
      · intro fid' f' hget
        by_cases he : fid = fid'
        · subst he
          rw [lget_set_self _ _ _ hflt] at hget
          obtain rfl := Option.some.inj hget
          obtain ⟨h1, _⟩ := hfut fid f hf
          exact ⟨h1, by intro r hr2; exact (Option.some.inj hr2).symm⟩
        · rw [lget_set_ne _ _ _ _ he] at hget
          exact hfut fid' f' hget
      · intro j v hv
        obtain ⟨k, hck, hpath, ⟨f0, hf0, hf0p, hf0k, hf0s⟩, himg⟩ := hviews j v hv
        refine ⟨k, hck, hpath, ?_, himg⟩
        by_cases he : fid = v.fid
        · subst he
          obtain rfl := Option.some.inj ((hf0.symm).trans hf)
          exact ⟨{ f0 with result := some (env.decode f0.fpath) },
            lget_set_self _ _ _ hflt, hf0p, hf0k, hf0s⟩
        · exact ⟨f0, by rw [lget_set_ne _ _ _ _ he]; exact hf0, hf0p, hf0k, hf0s⟩

theorem pullImage_inv (env : LoadEnv) (s : LoadState) (i : Nat)
    (hs : loadInv env s) : loadInv env (pullImage s i) := by
  obtain ⟨hfut, hviews, hempty, hlen⟩ := hs
  cases hv : s.views.get? i with
  | none =>
    have hstep : pullImage s i = s := by simp only [pullImage, hv]
    rw [hstep]
    exact ⟨hfut, hviews, hempty, hlen⟩
  | some ov =>
    cases ov with
    | none =>
      have hstep : pullImage s i = s := by simp only [pullImage, hv]
      rw [hstep]
      exact ⟨hfut, hviews, hempty, hlen⟩
    | some v =>
      cases hvi : v.image with
      | some img =>
        have hstep : pullImage s i = s := by simp only [pullImage, hv, hvi]
        rw [hstep]
        exact ⟨hfut, hviews, hempty, hlen⟩
      | none =>
        cases hff : s.futures.get? v.fid with
        | none =>
          have hstep : pullImage s i = s := by simp only [pullImage, hv, hvi, hff]
          rw [hstep]
          exact ⟨hfut, hviews, hempty, hlen⟩
        | some f =>
          cases hfr : f.result with
          | none =>
            have hstep : pullImage s i = s := by simp only [pullImage, hv, hvi, hff, hfr]
            rw [hstep]
            exact ⟨hfut, hviews, hempty, hlen⟩
          | some r =>
            have hstep : pullImage s i =
                { s with views := s.views.set i (some { v with image := r }) } := by
              simp only [pullImage, hv, hvi, hff, hfr]
            rw [hstep]
            have hilt : i < s.views.length := lget_lt_length hv
            refine ⟨hfut, ?_, ?_, by simpa using hlen⟩
            · intro j v' hv'
              by_cases he : i = j
              · subst he
                rw [lget_set_self _ _ _ hilt] at hv'
                obtain rfl := Option.some.inj (Option.some.inj hv')
                obtain ⟨k, hck, hpath, ⟨f0, hf0, hf0p, hf0k, hf0s⟩, _⟩ := hviews i v hv
                obtain rfl := Option.some.inj ((hf0.symm).trans hff)
                refine ⟨k, hck, hpath, ⟨f0, hf0, hf0p, hf0k, hf0s⟩, ?_⟩
                intro img himg
                have hdec := (hfut v.fid f0 hf0).2 r hfr
                rw [← hf0p, ← hdec, ← himg]
              · rw [lget_set_ne _ _ _ _ he] at hv'
                exact hviews j v' hv'
            · intro j hjs
              by_cases he : i = j
              · subst he
                rcases hempty i hjs with h1 | h1 <;> rw [h1] at hv <;> simp at hv
              · rw [lget_set_ne _ _ _ _ he]
                exact hempty j hjs

theorem runCallback_inv (env : LoadEnv) (s : LoadState) (i : Nat)
    (hs : loadInv env s) : loadInv env (runCallback s i) := by
  unfold runCallback
  by_cases hmem : i ∈ s.callbacks
  · rw [if_pos hmem]
    apply pullImage_inv
    exact hs
  · rw [if_neg hmem]
    exact hs

theorem navigateNone_inv (env : LoadEnv) (s : LoadState) (hs : loadInv env s) :
    loadInv env (navigateNone s) := by
  obtain ⟨hfut, _, _, _⟩ := hs
  refine ⟨cancelPending_futuresOk env s hfut, ?_, ?_, rfl⟩
  · intro j v hv
    exact absurd hv (by intro h2; exact quad_none_no_view j v h2)
  · intro j _
    exact quad_none_empty j

theorem reachable_loadInv (env : LoadEnv) (s : LoadState) (h : ReachableLoad env s) :
    loadInv env s := by
  induction h with
  | init => exact init_loadInv env
  | navStep k _ ih => exact navigate_inv env k _ ih
  | navNoneStep _ ih => exact navigateNone_inv env _ ih
  | finish fid _ ih => exact finishStep_inv env _ fid ih
  | callbackStep i _ ih => exact runCallback_inv env _ i ih

/-- C9: a decode result belonging to a superseded key is never applied to the
panes of the current key.  In every reachable loader state, under every
interleaving of navigation, worker completion and callback delivery, any image
displayed by a pane view is the decode of the path resolved for that pane at
the *currently selected* key — the key of the last `load_images` — so a
late-arriving decode for an older key can never become the displayed image of
a view created for a newer key. -/
theorem C9_no_stale_decode (env : LoadEnv) (s : LoadState) (h : ReachableLoad env s)
    (i : Nat) (v : LoadView) (img : Image)
    (hv : s.views.get? i = some (some v)) (himg : v.image = some img) :
    ∃ k, s.currentKey = some k ∧ v.vpath = env.pathFor i k ∧
      env.decode (env.pathFor i k) = some img := by
  obtain ⟨_, hviews, _, _⟩ := reachable_loadInv env s h
  obtain ⟨k, hck, hpath, _, hdec⟩ := hviews i v hv
  refine ⟨k, hck, hpath, ?_⟩
  rw [← hpath]
  exact hdec img himg

/-- Witness for C9 along the concrete trace of `demoLoadedState`: navigate to
key 1, let the worker decode, deliver the callback; the displayed image is
the decode of pane 0's path for key 1. -/
theorem C9_no_stale_decode_witness :
    ∃ k, demoLoadedState.currentKey = some k ∧
      ({ fid := 0, vpath := "xp", image := some [2] } : LoadView).vpath =
        demoEnv.pathFor 0 k ∧
      demoEnv.decode (demoEnv.pathFor 0 k) = some [2] :=
  C9_no_stale_decode demoEnv demoLoadedState
    (ReachableLoad.callbackStep 0
      (ReachableLoad.finish 0 (ReachableLoad.navStep 1 ReachableLoad.init)))
    0 { fid := 0, vpath := "xp", image := some [2] } [2] (by decide) rfl

/-- C6 amended: navigation is cyclic on every non-empty key list — `next`
from the last index wraps to 0 and `prev` from index 0 wraps to the last
index — but on an empty key list (`current_key` is `None`) `next_image` and
`prev_image` raise `TypeError` at `self.current_key + 1` (lines 320, 326)
instead of being no-ops. -/
theorem C6_navigation_cyclic (st : AppState) (c : ℤ)
    (hc : st.current_key = some c) (h0 : 0 ≤ c) (hlt : c < (st.key_list.length : ℤ))
    (hcov : sourcesCoverKeys st = true) :
    (∃ st', next_image st = some st' ∧
      st'.current_key = some ((c + 1) % (st.key_list.length : ℤ))) ∧
    (∃ st', prev_image st = some st' ∧
      st'.current_key = some ((c + (st.key_list.length : ℤ) - 1) % (st.key_list.length : ℤ))) ∧
    (c = (st.key_list.length : ℤ) - 1 → (c + 1) % (st.key_list.length : ℤ) = 0) ∧
    (c = 0 → (c + (st.key_list.length : ℤ) - 1) % (st.key_list.length : ℤ) =
      (st.key_list.length : ℤ) - 1) ∧
    (∀ st2 : AppState, st2.current_key = none →
      next_image st2 = none ∧ prev_image st2 = none) := by
  have hlen0 : st.key_list.length ≠ 0 := by omega
  have hlenz : (st.key_list.length : ℤ) ≠ 0 := by exact_mod_cast hlen0
  have hlenpos : (0 : ℤ) < (st.key_list.length : ℤ) := by omega
  refine ⟨?_, ?_, ?_, ?_, ?_⟩
  · set st2 : AppState := { st with current_key := some ((c + 1) % (st.key_list.length : ℤ)) }
      with hst2
    have hb2 : keyIndexInBounds st2.current_key st2.key_list.length := by
      intro c2 hc2
      have heq : (c + 1) % (st.key_list.length : ℤ) = c2 := by simpa [hst2] using hc2
      have hnn := Int.emod_nonneg (c + 1) hlenz
      have hltm := Int.emod_lt_of_pos (c + 1) (b := (st.key_list.length : ℤ)) hlenpos
      rw [heq] at hnn hltm
      exact ⟨hnn, hltm⟩
    obtain ⟨vs, hload⟩ := load_images_spec st2 hb2 hcov
    exact ⟨{ st2 with image_views := vs }, by simp [next_image, hc, hlen0, hst2, hload], rfl⟩
  · set st2 : AppState :=
      { st with current_key := some ((c + (st.key_list.length : ℤ) - 1) % (st.key_list.length : ℤ)) }
      with hst2
    have hb2 : keyIndexInBounds st2.current_key st2.key_list.length := by
      intro c2 hc2
      have heq : (c + (st.key_list.length : ℤ) - 1) % (st.key_list.length : ℤ) = c2 := by
        simpa [hst2] using hc2
      have hnn := Int.emod_nonneg (c + (st.key_list.length : ℤ) - 1) hlenz
      have hltm := Int.emod_lt_of_pos (c + (st.key_list.length : ℤ) - 1)
        (b := (st.key_list.length : ℤ)) hlenpos
      rw [heq] at hnn hltm
      exact ⟨hnn, hltm⟩
    obtain ⟨vs, hload⟩ := load_images_spec st2 hb2 hcov
    exact ⟨{ st2 with image_views := vs }, by simp [prev_image, hc, hlen0, hst2, hload], rfl⟩
  · intro hlast
    have h1 : c + 1 = (st.key_list.length : ℤ) := by omega
    rw [h1, Int.emod_self]
  · intro hzero
    have h1 : c + (st.key_list.length : ℤ) - 1 = (st.key_list.length : ℤ) - 1 := by omega
    rw [h1]
    exact Int.emod_eq_of_lt (by omega) (by omega)
  · intro st2 h2
    exact ⟨by simp [next_image, h2], by simp [prev_image, h2]⟩

/-- Witness for C6's amended theorem on the concrete session `navApp`
(key list `[2, 3]`, second key selected): `next` wraps to index 0, `prev`
moves to index 0's predecessor formula, and empty-key navigation faults. -/
theorem C6_navigation_cyclic_witness :
    (∃ st', next_image navApp = some st' ∧
      st'.current_key = some ((1 + 1) % (navApp.key_list.length : ℤ))) ∧
    (∃ st', prev_image navApp = some st' ∧
      st'.current_key = some ((1 + (navApp.key_list.length : ℤ) - 1) % (navApp.key_list.length : ℤ))) ∧
    ((1 : ℤ) = (navApp.key_list.length : ℤ) - 1 → (1 + 1) % (navApp.key_list.length : ℤ) = 0) ∧
    ((1 : ℤ) = 0 → (1 + (navApp.key_list.length : ℤ) - 1) % (navApp.key_list.length : ℤ) =
      (navApp.key_list.length : ℤ) - 1) ∧
    (∀ st2 : AppState, st2.current_key = none →
      next_image st2 = none ∧ prev_image st2 = none) :=
  C6_navigation_cyclic navApp 1 rfl (by decide) (by decide) (by decide)

/-- C10: assigning a new source to the pane currently designated as ground
truth clears the designation — `menu_change_view` (lines 185-186) resets
`gt_index` to `None` before reconciling keys and reloading, and the reload
keeps it `None`. -/
theorem C10_replacing_gt_source_clears_gt (st : AppState) (i : Nat) (src : Source)
    (hlen : i < st.image_sources.length)
    (hgt : st.gt_index = some (i : ℤ))
    (hnn : currentKeyNonneg st = true) :
    ∃ st', menu_change_view st (i : ℤ) src = some st' ∧ st'.gt_index = none := by
  set st1 : AppState :=
    { st with
      image_sources := st.image_sources.set ((i : ℤ)).toNat (some src),
      gt_index := if st.gt_index = some (i : ℤ) then none else st.gt_index }
    with hst1
  have hj : st1.image_sources.get? i = some (some src) := by
    have htn : ((i : ℤ)).toNat = i := by omega
    rw [hst1]
    simpa [htn] using lget_set_self st.image_sources i (some src) hlen
  have hnn1 : currentKeyNonneg st1 = true := by
    unfold currentKeyNonneg at hnn ⊢
    simpa [hst1] using hnn
  obtain ⟨st2, hupd, _, _, hgt2, hbounds2, hcov2⟩ := update_key_list_spec st1 i src hj hnn1
  obtain ⟨vs, hload⟩ := load_images_spec st2 hbounds2 hcov2
  have hmc : menu_change_view st (i : ℤ) src = (update_key_list st1).bind load_images := rfl
  refine ⟨{ st2 with image_views := vs }, ?_, ?_⟩
  · rw [hmc, hupd, Option.some_bind, hload]
  · show st2.gt_index = none
    rw [hgt2]
    simp [hst1, hgt]

/-- Witness for C10 on the concrete session `navApp` (ground truth on
pane 1), replacing pane 1's source with `srcC`. -/
theorem C10_replacing_gt_source_clears_gt_witness :
    ∃ st', menu_change_view navApp (1 : ℤ) srcC = some st' ∧ st'.gt_index = none :=
  C10_replacing_gt_source_clears_gt navApp 1 srcC (by decide) (by decide) (by decide)

end ImageCompare
